import Mathlib

/-!
# Enki s-bot: global sound aggregation, energy bookkeeping and reception

A shallow embedding of `libenki/enki/robots/s-bot/Sbot.h`.

* `unsigned` frequency masks are natural numbers.  The only operations the
  header performs on them are the assignment of `0` and bitwise OR, neither of
  which can leave the range of a fixed-width unsigned integer
  (`step_preserves_width`), so no reduction modulo `2 ^ w` is needed.
* The class-static member `worldFrequenciesState` is threaded explicitly: a
  member function receives the object and the static and returns both.
* The unused parameters `double dt` and `World *w` of `step` and the `owner`
  pointer are not represented.
-/

namespace Enki

/-! ## SbotGlobalSound -/

/-- The per-robot part of `class SbotGlobalSound`: the public member
`unsigned frequenciesState`. -/
structure SbotGlobalSound where
  /-- The frequencies state of this robot, mask of all frequencies. -/
  frequenciesState : Nat
  deriving DecidableEq, Repr

/-- `virtual void init() { worldFrequenciesState = 0; }`.
Returns the object and the new value of the static. -/
def SbotGlobalSound.init (self : SbotGlobalSound) (_worldFrequenciesState : Nat) :
    SbotGlobalSound × Nat :=
  (self, 0)

/-- `virtual void step(double dt, World *w) { worldFrequenciesState |= frequenciesState; }`.
Returns the object and the new value of the static. -/
def SbotGlobalSound.step (self : SbotGlobalSound) (worldFrequenciesState : Nat) :
    SbotGlobalSound × Nat :=
  (self, worldFrequenciesState ||| self.frequenciesState)

/-- Modelled from the spec: the body of the static accessor
`getWorldFrequenciesState` is only declared in the header; following
`currentState()` ("returns the current mask, read-only") it returns the static
unchanged. -/
def getWorldFrequenciesState (worldFrequenciesState : Nat) : Nat :=
  worldFrequenciesState

/-- One `step()` per agent, in list order, starting from the world mask `w`. -/
def stepAll (agents : List SbotGlobalSound) (w : Nat) : Nat :=
  agents.foldl (fun acc a => (a.step acc).2) w

/-- The agents whose emission masks are the given ones. -/
def agentsOf (masks : List Nat) : List SbotGlobalSound :=
  masks.map SbotGlobalSound.mk

/-- One `init()` per robot, in list order, starting from the world mask `w`. -/
def initAll (robots : List SbotGlobalSound) (w : Nat) : Nat :=
  robots.foldl (fun acc a => (a.init acc).2) w

/-- The protocol in which every agent resets the world mask immediately before
its own contribution: `init(); step();` per agent, in list order. -/
def initStepAll (agents : List SbotGlobalSound) (w : Nat) : Nat :=
  agents.foldl (fun acc a => (a.step (a.init acc).2).2) w

/-! ## FeedableSbot

The members `energy`, `dEnergy` and `lastDEnergy` are `double`s.  The carrier
`α` stands for that type; the definitions only use the literal `0` and
addition, so every statement below is about any carrier that has them. The
inherited `Sbot` sub-object (camera, global sound, wheel speeds) is not
represented: its constructor and `Sbot::step` are only declared in the
header. -/

/-- The data members that `class FeedableSbot` adds to `Sbot`. -/
structure FeedableSbot (α : Type) where
  /-- The actual energy of the Sbot. -/
  energy : α
  /-- The actual energy difference. -/
  dEnergy : α
  /-- The previous energy difference. -/
  lastDEnergy : α
  deriving DecidableEq, Repr

/-- `FeedableSbot() { energy=0; dEnergy=0; lastDEnergy=0; }`. -/
def FeedableSbot.new {α : Type} [OfNat α 0] : FeedableSbot α :=
  { energy := 0, dEnergy := 0, lastDEnergy := 0 }

/-- Modelled from the spec: the body of `FeedableSbot::step` is only declared
in the header.  Following the Energy Bookkeeper contract, one update (1)
computes the new delta with the supplied production rule `produce`, (2) shifts
`lastDEnergy ← dEnergy`, (3) sets `dEnergy ←` the new delta and (4) sets
`energy ← energy + dEnergy`. The parameter `double dt` is only an input of the
production rule and is not represented. -/
def FeedableSbot.step {α : Type} [Add α] (produce : FeedableSbot α → α)
    (self : FeedableSbot α) : FeedableSbot α :=
  let newDelta := produce self
  let s₁ := { self with lastDEnergy := self.dEnergy }
  let s₂ := { s₁ with dEnergy := newDelta }
  { s₂ with energy := s₂.energy + s₂.dEnergy }

/-- The state observed after the step of tick `t`, ticks being numbered from
`1`; the state "after tick `0`" is the starting state. `produce t` is the
production rule in force during tick `t`. -/
def FeedableSbot.afterTick {α : Type} [Add α] (produce : Nat → FeedableSbot α → α)
    (start : FeedableSbot α) : Nat → FeedableSbot α
  | 0 => start
  | t + 1 => FeedableSbot.step (produce (t + 1)) (afterTick produce start t)

/-- The production rule of the energy scenario: delta `2` in tick `1`, delta `3`
afterwards. -/
def scenarioProduce (t : Nat) (_self : FeedableSbot Int) : Int :=
  if t = 1 then 2 else 3

/-! ## SbotMicrophone

Distances and the range are `double`s; the carrier `D` stands for that type
and only its comparison `≤` is used. -/

/-- A nearby sound emitter as a sensor sees it: `distance k` is its distance
from the absolute position of sensor `k` (the outcome of the pose and offset
geometry), `frequencies` the mask it emits. -/
structure Emitter (D : Type) where
  distance : Nat → D
  frequencies : Nat

/-- The configuration `SbotMicrophone(owner, micDist, range, micModel, channels)`
hands to `FourWayMic`, without the `owner` pointer. -/
structure SbotMicrophone (D : Type) where
  micDist : D
  range : D
  micModel : D → Bool
  channels : Nat

/-- Modelled from the spec: whether sensor `k` detects the emitter `e`: the
emitter is within range and the response model, evaluated at the actual
distance, signals detection. -/
def SbotMicrophone.detects {D : Type} [LE D] [DecidableRel (fun a b : D => a ≤ b)]
    (mic : SbotMicrophone D) (k : Nat) (e : Emitter D) : Bool :=
  decide (e.distance k ≤ mic.range) && mic.micModel (e.distance k)

/-- Modelled from the spec: the body of `SbotMicrophone::objectStep` is only
declared in the header.  One call handles one nearby object: when sensor `k`
detects it, the sensor records the emitter's frequency set as heard. `heard`
is what sensor `k` has recorded so far in this tick. -/
def SbotMicrophone.objectStep {D : Type} [LE D] [DecidableRel (fun a b : D => a ≤ b)]
    (mic : SbotMicrophone D) (k : Nat) (heard : Nat) (po : Emitter D) : Nat :=
  if mic.detects k po then heard ||| po.frequencies else heard

/-- Modelled from the spec: the reception result of sensor `k` for one tick:
the union of the near-emitter detections over all nearby emitters and, if the
world frequency mask has any bit set, of those ambient frequencies. -/
def SbotMicrophone.reception {D : Type} [LE D] [DecidableRel (fun a b : D => a ≤ b)]
    (mic : SbotMicrophone D) (worldFrequenciesState : Nat) (nearby : List (Emitter D))
    (k : Nat) : Nat :=
  let heard := nearby.foldl (mic.objectStep k) 0
  if getWorldFrequenciesState worldFrequenciesState ≠ 0 then
    heard ||| getWorldFrequenciesState worldFrequenciesState
  else heard

/-- The microphone of the reception scenario: range `5`, a step response model
that detects everything within range. -/
def scenarioMic : SbotMicrophone Nat :=
  { micDist := 1, range := 5, micModel := fun _ => true, channels := 20 }

/-- A sound source emitting `0b0100` at the same distance `d` from every sensor. -/
def scenarioSource (d : Nat) : Emitter Nat :=
  { distance := fun _ => d, frequencies := 0b0100 }

/-! ### Helper lemmas -/

theorem stepAll_nil (w : Nat) : stepAll [] w = w := rfl

theorem stepAll_cons (a : SbotGlobalSound) (as : List SbotGlobalSound) (w : Nat) :
    stepAll (a :: as) w = stepAll as (w ||| a.frequenciesState) := rfl

theorem stepAll_eq_lor (as : List SbotGlobalSound) (w : Nat) :
    stepAll as w = w ||| (as.map SbotGlobalSound.frequenciesState).foldr (· ||| ·) 0 := by
  induction as generalizing w with
  | nil => simp [stepAll_nil]
  | cons a as ih =>
    rw [stepAll_cons, ih]
    simp [Nat.lor_assoc]

theorem agentsOf_masks (masks : List Nat) :
    (agentsOf masks).map SbotGlobalSound.frequenciesState = masks := by
  induction masks with
  | nil => rfl
  | cons m ms ih => simpa [agentsOf] using ih

theorem stepAll_testBit (as : List SbotGlobalSound) (w i : Nat) :
    (stepAll as w).testBit i =
      (w.testBit i || as.any (fun a => a.frequenciesState.testBit i)) := by
  induction as generalizing w with
  | nil => simp [stepAll_nil]
  | cons a as ih =>
    rw [stepAll_cons, ih, Nat.testBit_lor, List.any_cons, Bool.or_assoc]

theorem stepAll_perm {as bs : List SbotGlobalSound} (p : as.Perm bs) (w : Nat) :
    stepAll as w = stepAll bs w := by
  induction p generalizing w with
  | nil => rfl
  | cons a _ ih => simpa [stepAll_cons] using ih _
  | swap a b l =>
    simp only [stepAll_cons]
    congr 1
    rw [Nat.lor_assoc, Nat.lor_comm b.frequenciesState, ← Nat.lor_assoc]
  | trans _ _ ih₁ ih₂ => exact (ih₁ w).trans (ih₂ w)

/-- Neither operation leaves the range of a `w`-bit unsigned integer. -/
theorem step_preserves_width (width : Nat) (a : SbotGlobalSound) (s : Nat)
    (hs : s < 2 ^ width) (ha : a.frequenciesState < 2 ^ width) :
    (a.step s).2 < 2 ^ width ∧ (a.init s).2 < 2 ^ width := by
  refine ⟨Nat.or_lt_two_pow hs ha, ?_⟩
  simp [SbotGlobalSound.init]

theorem initAll_cons (a : SbotGlobalSound) (as : List SbotGlobalSound) (w : Nat) :
    initAll (a :: as) w = initAll as 0 := rfl

theorem initAll_zero (as : List SbotGlobalSound) : initAll as 0 = 0 := by
  induction as with
  | nil => rfl
  | cons a as ih => rw [initAll_cons, ih]

theorem initStepAll_snoc (as : List SbotGlobalSound) (b : SbotGlobalSound) (w : Nat) :
    initStepAll (as ++ [b]) w = b.frequenciesState := by
  simp [initStepAll, SbotGlobalSound.init, SbotGlobalSound.step]

theorem lor_ne_of_missing_bit {A B i : Nat} (hA : A.testBit i = true)
    (hB : B.testBit i = false) : B ≠ A ||| B := by
  intro h
  have h' := congrArg (fun n => n.testBit i) h
  simp [Nat.testBit_lor, hA, hB] at h'

theorem heard_testBit {D : Type} [LE D] [DecidableRel (fun a b : D => a ≤ b)]
    (mic : SbotMicrophone D) (k : Nat) (nearby : List (Emitter D)) (heard i : Nat) :
    (nearby.foldl (mic.objectStep k) heard).testBit i =
      (heard.testBit i ||
        nearby.any (fun e => mic.detects k e && e.frequencies.testBit i)) := by
  induction nearby generalizing heard with
  | nil => simp
  | cons e es ih =>
    rw [List.foldl_cons, ih, List.any_cons, ← Bool.or_assoc]
    congr 1
    unfold SbotMicrophone.objectStep
    by_cases hd : mic.detects k e = true
    · simp [hd, Nat.testBit_lor]
    · simp [hd]

theorem reception_testBit {D : Type} [LE D] [DecidableRel (fun a b : D => a ≤ b)]
    (mic : SbotMicrophone D) (world : Nat) (nearby : List (Emitter D)) (k i : Nat) :
    (mic.reception world nearby k).testBit i =
      (world.testBit i ||
        nearby.any (fun e => mic.detects k e && e.frequencies.testBit i)) := by
  unfold SbotMicrophone.reception getWorldFrequenciesState
  by_cases hw : world = 0
  · simp [hw, heard_testBit]
  · simp [hw, heard_testBit, Nat.testBit_lor, Bool.or_comm]

/-! ## The global sound channel -/

/-- C1: whatever the shared world frequency mask is, and in particular after
any list of prior `step` contributions, the mask read immediately after
`init()` is the empty mask `0`. -/
theorem init_then_read_is_empty (a : SbotGlobalSound) (w : Nat)
    (prior : List SbotGlobalSound) :
    (a.init w).2 = 0 ∧
      getWorldFrequenciesState (a.init w).2 = 0 ∧
      getWorldFrequenciesState (a.init (stepAll prior w)).2 = 0 :=
  ⟨rfl, rfl, rfl⟩

/-- C2: for every list of emission masks, one `init()` followed by one `step()`
per agent in list order leaves the world mask equal to the bitwise OR of the
masks (`0` for the empty list); masks `0b0001` and `0b0010` give `0b0011`, and
a following `init()` gives `0b0000`. -/
theorem init_then_steps_is_or (a : SbotGlobalSound) (w : Nat) (masks : List Nat) :
    stepAll (agentsOf masks) (a.init w).2 = masks.foldr (· ||| ·) 0 ∧
      stepAll (agentsOf []) (a.init w).2 = 0 ∧
      stepAll (agentsOf [0b0001, 0b0010]) (a.init w).2 = 0b0011 ∧
      (a.init (stepAll (agentsOf [0b0001, 0b0010]) (a.init w).2)).2 = 0b0000 := by
  refine ⟨?_, rfl, ?_, rfl⟩
  · rw [stepAll_eq_lor, agentsOf_masks]
    simp [SbotGlobalSound.init]
  · simp [stepAll, agentsOf, SbotGlobalSound.step, SbotGlobalSound.init]

/-- C3: from every starting world mask, contributing the masks of a list in any
permuted order yields the same final world mask; in particular `A` then `B`
equals `B` then `A`. -/
theorem step_order_irrelevant (w : Nat) (masks masks' : List Nat)
    (h : masks.Perm masks') :
    stepAll (agentsOf masks) w = stepAll (agentsOf masks') w ∧
      ∀ A B : SbotGlobalSound, (B.step (A.step w).2).2 = (A.step (B.step w).2).2 := by
  refine ⟨stepAll_perm (h.map _) w, fun A B => ?_⟩
  exact stepAll_perm (List.Perm.swap B A []) w

theorem step_order_irrelevant_witness :
    [1, 2, 4].Perm [4, 1, 2] ∧
      stepAll (agentsOf [1, 2, 4]) 8 = stepAll (agentsOf [4, 1, 2]) 8 :=
  ⟨by decide, (step_order_irrelevant 8 [1, 2, 4] [4, 1, 2] (by decide)).1⟩

/-- C4: `step` only accumulates: every bit set in the world mask before a step
is set after it, every bit of the emitted mask is set after it, the same holds
across any run of steps, and `init()` is the operation that clears bits. -/
theorem step_monotone (a : SbotGlobalSound) (s i : Nat) :
    (s.testBit i = true → (a.step s).2.testBit i = true) ∧
      (a.frequenciesState.testBit i = true → (a.step s).2.testBit i = true) ∧
      (∀ agents : List SbotGlobalSound,
        s.testBit i = true → (stepAll agents s).testBit i = true) ∧
      (a.init s).2.testBit i = false := by
  refine ⟨fun h => ?_, fun h => ?_, fun agents h => ?_, ?_⟩
  · simp [SbotGlobalSound.step, Nat.testBit_lor, h]
  · simp [SbotGlobalSound.step, Nat.testBit_lor, h]
  · simp [stepAll_testBit, h]
  · simp [SbotGlobalSound.init]

theorem step_monotone_witness :
    (SbotGlobalSound.step ⟨0b0010⟩ 0b0101).2.testBit 2 = true ∧
      (SbotGlobalSound.step ⟨0b0010⟩ 0b0101).2.testBit 1 = true :=
  ⟨(step_monotone ⟨0b0010⟩ 0b0101 2).1 (by decide),
    (step_monotone ⟨0b0010⟩ 0b0101 1).2.1 (by decide)⟩

/-- C8: when the reset is invoked once per agent immediately before that
agent's contribution, the last agent processed clobbers the aggregate: after
`init, step(A), init, step(B)` the world mask is `B` (and after any such run
ending with `B` it is `B`), which differs from `A | B` whenever `A` has a bit
that `B` lacks. -/
theorem reset_per_agent_clobbers (A B : SbotGlobalSound) (w : Nat) :
    (B.step (B.init (A.step (A.init w).2).2).2).2 = B.frequenciesState ∧
      (∀ earlier : List SbotGlobalSound,
        initStepAll (earlier ++ [B]) w = B.frequenciesState) ∧
      ((∃ i, A.frequenciesState.testBit i = true ∧ B.frequenciesState.testBit i = false) →
        (B.step (B.init (A.step (A.init w).2).2).2).2 ≠
          A.frequenciesState ||| B.frequenciesState) := by
  refine ⟨by simp [SbotGlobalSound.init, SbotGlobalSound.step],
    fun earlier => initStepAll_snoc earlier B w, ?_⟩
  rintro ⟨i, hA, hB⟩
  simpa [SbotGlobalSound.init, SbotGlobalSound.step] using lor_ne_of_missing_bit hA hB

theorem reset_per_agent_clobbers_witness :
    (SbotGlobalSound.step ⟨0b0010⟩ (SbotGlobalSound.init ⟨0b0010⟩
      (SbotGlobalSound.step ⟨0b0001⟩ (SbotGlobalSound.init ⟨0b0001⟩ 7).2).2).2).2 ≠
      0b0001 ||| 0b0010 :=
  (reset_per_agent_clobbers ⟨0b0001⟩ ⟨0b0010⟩ 7).2.2 ⟨0, by decide, by decide⟩

/-- C9: one `init()` per robot is equivalent to a single `init()`: for every
starting world mask and every non-empty list of robots, the resets leave the
world mask `0`, as a single reset does, so the contributions that follow give
the same final mask. -/
theorem reset_per_robot_eq_single_reset (robots : List SbotGlobalSound)
    (a : SbotGlobalSound) (w : Nat) (contributions : List SbotGlobalSound)
    (h : 1 ≤ robots.length) :
    initAll robots w = 0 ∧ initAll robots w = (a.init w).2 ∧
      stepAll contributions (initAll robots w) =
        stepAll contributions (a.init w).2 := by
  have h0 : initAll robots w = 0 := by
    cases robots with
    | nil => simp at h
    | cons r rs => rw [initAll_cons, initAll_zero]
  exact ⟨h0, by rw [h0]; rfl, by rw [h0]; rfl⟩

theorem reset_per_robot_eq_single_reset_witness :
    1 ≤ [SbotGlobalSound.mk 1, ⟨2⟩, ⟨4⟩].length ∧
      stepAll [⟨1⟩, ⟨2⟩] (initAll [⟨1⟩, ⟨2⟩, ⟨4⟩] 0b1000) =
        stepAll [⟨1⟩, ⟨2⟩] (SbotGlobalSound.init ⟨1⟩ 0b1000).2 :=
  ⟨by decide,
    (reset_per_robot_eq_single_reset [⟨1⟩, ⟨2⟩, ⟨4⟩] ⟨1⟩ 0b1000 [⟨1⟩, ⟨2⟩]
      (by decide)).2.2⟩

/-- C10: neither `init()` nor `step()` changes the agent's own emission mask
`frequenciesState`, and contributing the same mask a second time leaves the
world mask as it was after the first contribution. -/
theorem global_sound_frame (a : SbotGlobalSound) (s : Nat) :
    (a.init s).1.frequenciesState = a.frequenciesState ∧
      (a.step s).1.frequenciesState = a.frequenciesState ∧
      ((a.step s).1.step (a.step s).2).2 = (a.step s).2 := by
  refine ⟨rfl, rfl, ?_⟩
  simp [SbotGlobalSound.step, Nat.lor_assoc]

/-! ## Energy bookkeeping -/

/-- C5: a newly constructed `FeedableSbot` has `energy = 0`, `dEnergy = 0` and
`lastDEnergy = 0`. -/
theorem new_feedable_sbot_is_zero {α : Type} [OfNat α 0] :
    (FeedableSbot.new : FeedableSbot α).energy = 0 ∧
      (FeedableSbot.new : FeedableSbot α).dEnergy = 0 ∧
      (FeedableSbot.new : FeedableSbot α).lastDEnergy = 0 :=
  ⟨rfl, rfl, rfl⟩

/-- C6: for every `FeedableSbot` and every tick `t > 0`, `lastDEnergy` observed
after the step of tick `t` equals `dEnergy` observed after the step of tick
`t - 1`, and the step adds the tick's delta to `energy`; deltas `2` then `3`
from the newly constructed state give energy `2` then `5` and previous delta
`0` then `2`. -/
theorem last_delta_is_previous_delta {α : Type} [Add α]
    (produce : Nat → FeedableSbot α → α) (start : FeedableSbot α) (t : Nat)
    (ht : 0 < t) :
    (FeedableSbot.afterTick produce start t).lastDEnergy =
        (FeedableSbot.afterTick produce start (t - 1)).dEnergy ∧
      (FeedableSbot.afterTick produce start t).dEnergy =
        produce t (FeedableSbot.afterTick produce start (t - 1)) ∧
      (FeedableSbot.afterTick produce start t).energy =
        (FeedableSbot.afterTick produce start (t - 1)).energy +
          (FeedableSbot.afterTick produce start t).dEnergy ∧
      (FeedableSbot.afterTick scenarioProduce FeedableSbot.new 1).energy = 2 ∧
      (FeedableSbot.afterTick scenarioProduce FeedableSbot.new 1).lastDEnergy = 0 ∧
      (FeedableSbot.afterTick scenarioProduce FeedableSbot.new 2).energy = 5 ∧
      (FeedableSbot.afterTick scenarioProduce FeedableSbot.new 2).lastDEnergy = 2 := by
  obtain ⟨n, rfl⟩ : ∃ n, t = n + 1 := ⟨t - 1, by omega⟩
  exact ⟨rfl, rfl, rfl, by decide, by decide, by decide, by decide⟩

theorem last_delta_is_previous_delta_witness :
    0 < 2 ∧
      (FeedableSbot.afterTick scenarioProduce FeedableSbot.new 2).lastDEnergy =
        (FeedableSbot.afterTick scenarioProduce FeedableSbot.new (2 - 1)).dEnergy :=
  ⟨by decide,
    (last_delta_is_previous_delta scenarioProduce FeedableSbot.new 2 (by decide)).1⟩

/-! ## Reception -/

/-- C7: for every sensor `k`, the reception result contains every bit set in
the current world frequency mask whatever the distances are; a bit is in the
result exactly when it is in the world mask or in the frequencies of a nearby
emitter that is within range and passes the response model; and the result is
the empty mask when there is no nearby emitter and the world mask is empty (as
it is for a single source at distance `6` with range `5`). -/
theorem reception_contents {D : Type} [LE D] [DecidableRel (fun a b : D => a ≤ b)]
    (mic : SbotMicrophone D) (world : Nat) (nearby : List (Emitter D)) (k i : Nat) :
    ((getWorldFrequenciesState world).testBit i = true →
        (mic.reception world nearby k).testBit i = true) ∧
      ((mic.reception world nearby k).testBit i = true ↔
        (getWorldFrequenciesState world).testBit i = true ∨
          ∃ e ∈ nearby, e.distance k ≤ mic.range ∧ mic.micModel (e.distance k) = true ∧
            e.frequencies.testBit i = true) ∧
      mic.reception 0 [] k = 0 ∧
      scenarioMic.reception 0 [scenarioSource 6] k = 0 := by
  refine ⟨fun h => ?_, ?_, ?_, ?_⟩
  · rw [reception_testBit]
    simp [getWorldFrequenciesState] at h
    simp [h]
  · rw [reception_testBit]
    simp [getWorldFrequenciesState, SbotMicrophone.detects, and_assoc]
  · simp [SbotMicrophone.reception, getWorldFrequenciesState]
  · simp [SbotMicrophone.reception, getWorldFrequenciesState, SbotMicrophone.objectStep,
      SbotMicrophone.detects, scenarioMic, scenarioSource]

theorem reception_contents_witness :
    (scenarioMic.reception 0b0011 [scenarioSource 6] 0).testBit 1 = true :=
  (reception_contents scenarioMic 0b0011 [scenarioSource 6] 0 1).1 (by decide)

end Enki
